import Mathlib

/-!
Verification of the core of an autonomous browser agent consisting of an
agent control loop (`agent.py`), an accessibility-tree compactor
(`accessibility.py`) and a browser capability set (`browser.py`).

The development shallowly embeds the program: python strings are `String`,
python lists are `List`, python dicts that are used as ordered maps are
association lists in insertion order, stateful methods are explicit
state-passing functions, and the external collaborators (the tiktoken
encoder, the model endpoint, playwright and the human operator) are
parameters of the functions that consume them.
-/

set_option maxRecDepth 10000

/-! ## Python string primitives

`pySpace` is the python whitespace class used by `str.strip`, `pstrip`
models `str.strip()`, `pyLower`/`pyUpper` model `str.lower()`/`str.upper()`,
`flattenNl` models `str.replace("\n", " ")`, `pyTake` models slicing
`s[:n]`, `pyLen` models `len(s)`, `pyIn` models the `in` substring test and
`joinSp`/`joinCommaSp` model `" ".join`/`", ".join`. -/

def pySpace (c : Char) : Bool :=
  c = ' ' || c = '\t' || c = '\n' || c = '\r' || c = '\x0b' || c = '\x0c'

def pstripL (l : List Char) : List Char :=
  List.rdropWhile pySpace (List.dropWhile pySpace l)

def pstrip (s : String) : String := ⟨pstripL s.data⟩

def pyLower (s : String) : String := ⟨s.data.map Char.toLower⟩

def pyUpper (s : String) : String := ⟨s.data.map Char.toUpper⟩

def flattenNl (s : String) : String :=
  ⟨s.data.map (fun c => if c = '\n' then ' ' else c)⟩

def pyTake (s : String) (n : Nat) : String := ⟨s.data.take n⟩

def pyLen (s : String) : Nat := s.data.length

def startsWithL : List Char → List Char → Bool
  | [], _ => true
  | _ :: _, [] => false
  | a :: as, b :: bs => a == b && startsWithL as bs

def containsL (needle : List Char) : List Char → Bool
  | [] => needle.isEmpty
  | c :: t => startsWithL needle (c :: t) || containsL needle t

def pyIn (needle hay : String) : Bool := containsL needle.data hay.data

def joinSp : List String → String
  | [] => ""
  | [x] => x
  | x :: y :: t => x ++ " " ++ joinSp (y :: t)

def joinCommaSp : List String → String
  | [] => ""
  | [x] => x
  | x :: y :: t => x ++ ", " ++ joinCommaSp (y :: t)


/-! ## Accessibility compactor (`accessibility.py`)

`RawNode` models the raw accessibility snapshot node: a dict with keys
`role`, `name`, `value`, `checked`, `level`, `disabled`, `children`.
`ElementInfo` mirrors the `ElementInfo` dataclass (the unused `attributes`
field always keeps its default `""` and is omitted).  The parser state
`ScanState` carries the `elements_map` (a python dict with keys `1..k` in
insertion order, modelled as the list of its values in insertion order)
and the accumulated `report_lines`. -/

inductive RawNode where
  | mk (role : String) (name : String) (value : Option String)
       (checked : Bool) (level : Option Nat) (disabled : Bool)
       (children : List RawNode)

def RawNode.role : RawNode → String
  | .mk r _ _ _ _ _ _ => r

def RawNode.name : RawNode → String
  | .mk _ n _ _ _ _ _ => n

def RawNode.value : RawNode → Option String
  | .mk _ _ v _ _ _ _ => v

def RawNode.checked : RawNode → Bool
  | .mk _ _ _ c _ _ _ => c

def RawNode.level : RawNode → Option Nat
  | .mk _ _ _ _ l _ _ => l

def RawNode.disabled : RawNode → Bool
  | .mk _ _ _ _ _ d _ => d

def RawNode.children : RawNode → List RawNode
  | .mk _ _ _ _ _ _ ch => ch

theorem RawNode.sizeOf_children_lt (n : RawNode) : sizeOf n.children < sizeOf n := by
  cases n with
  | mk r nm v c l d ch =>
    simp only [RawNode.children, RawNode.mk.sizeOf_spec]
    omega

structure ElementInfo where
  id : Nat
  role : String
  name : String
deriving DecidableEq

def INTERACTIVE_ROLES : List String :=
  ["button", "link", "textbox", "searchbox", "combobox",
   "checkbox", "radio", "slider", "tab", "menuitem", "switch", "treeitem"]

def CONTEXT_ROLES : List String :=
  ["heading", "img", "statictext", "text", "paragraph", "listitem"]

/-- `AccessibilityParser._collect_text`, one list entry per child: the
child's stripped name when non-empty, otherwise the recursively collected
text of the child's children. -/
def collectParts : List RawNode → List String
  | [] => []
  | c :: rest =>
    (match c with
     | RawNode.mk _ rawName _ _ _ _ children =>
       if pstrip rawName ≠ "" then pstrip rawName
       else pstrip (joinSp ((collectParts children).filter (fun t => t ≠ ""))))
    :: collectParts rest
termination_by l => sizeOf l
decreasing_by
  all_goals simp_wf
  all_goals omega

/-- `AccessibilityParser._collect_text`: `" ".join([t for t in text if t]).strip()`. -/
def collectText (children : List RawNode) : String :=
  pstrip (joinSp ((collectParts children).filter (fun t => t ≠ "")))

/-- The name synthesis of `_traverse` (accessibility.py lines 47 and 55-56):
strip the node's own name; when it is empty, the node has children and the
role is interactive, collect the descendant text. -/
def synName (n : RawNode) : String :=
  let name0 := pstrip n.name
  if name0 = "" ∧ ¬ n.children.isEmpty ∧ INTERACTIVE_ROLES.contains n.role then
    collectText n.children
  else name0

def truthyVal : Option String → Bool
  | none => false
  | some v => v ≠ ""

def truthyLevel : Option Nat → Bool
  | none => false
  | some l => l ≠ 0

/-- The `[Value: ...]` substitution of `_traverse` (accessibility.py lines
68-69) applied after name synthesis. -/
def finalName (n : RawNode) : String :=
  let name1 := synName n
  if (n.role = "textbox" ∨ n.role = "searchbox") ∧ name1 = "" ∧ truthyVal n.value then
    "[Value: " ++ n.value.getD "" ++ "]"
  else name1

/-- The attribute list of `_traverse` (accessibility.py lines 67-75). -/
def attrList (n : RawNode) (name2 : String) : List String :=
  (if truthyVal n.value ∧ n.value.getD "" ≠ name2 then ["val=" ++ n.value.getD ""] else [])
    ++ (if n.checked then ["checked"] else [])
    ++ (if n.disabled then ["disabled"] else [])
    ++ (if truthyLevel n.level then ["h" ++ toString (n.level.getD 0)] else [])

def attrStr (n : RawNode) (name2 : String) : String :=
  if attrList n name2 ≠ [] then " (" ++ joinCommaSp (attrList n name2) ++ ")" else ""

/-- The display name of `_traverse` (accessibility.py lines 77-79):
newlines flattened to spaces, truncated to 77 characters plus `"..."` when
longer than 80 characters. -/
def displayName (s : String) : String :=
  let d := flattenNl s
  if pyLen d > 80 then pyTake d 77 ++ "..." else d

structure ScanState where
  elements : List ElementInfo
  report : List String
deriving DecidableEq

mutual

/-- `AccessibilityParser._traverse` as explicit state passing: the mutable
`self.elements_map` and the `report` list become the in/out `ScanState`. -/
def traverse (n : RawNode) (s : ScanState) : ScanState :=
  if s.elements.length ≥ 800 then s
  else if ¬ (INTERACTIVE_ROLES.contains n.role = true ∨ n.role = "heading" ∨
      (CONTEXT_ROLES.contains n.role = true ∧ synName n ≠ "" ∧ pyLen (synName n) > 2)) then
    traverseList n.children s
  else if n.role = "heading" then
    traverseList n.children
      { s with report := s.report ++
          ["\n=== " ++ pyUpper n.role ++ " " ++ displayName (finalName n) ++ " ==="] }
  else if INTERACTIVE_ROLES.contains n.role = true then
    traverseList n.children
      { elements := s.elements ++ [⟨s.elements.length + 1, n.role, finalName n⟩],
        report := s.report ++
          [toString (s.elements.length + 1) ++ ". [" ++ n.role ++ "] "
            ++ displayName (finalName n) ++ attrStr n (finalName n)] }
  else if pyIn "₽" (displayName (finalName n)) ∨ pyIn "$" (displayName (finalName n)) ∨
      pyIn "€" (displayName (finalName n)) ∨ pyLen (displayName (finalName n)) > 20 then
    traverseList n.children
      { s with report := s.report ++ ["    (txt) " ++ displayName (finalName n)] }
  else
    traverseList n.children s
termination_by sizeOf n
decreasing_by
  all_goals exact RawNode.sizeOf_children_lt n

def traverseList (l : List RawNode) (s : ScanState) : ScanState :=
  match l with
  | [] => s
  | c :: rest => traverseList rest (traverse c s)
termination_by sizeOf l
decreasing_by
  all_goals simp_wf
  all_goals omega

end

/-- `AccessibilityParser.scan` on a successfully obtained snapshot: clear
the elements map and traverse from the empty state (the snapshot
acquisition itself is an external playwright call). -/
def scan (root : RawNode) : ScanState :=
  traverse root { elements := [], report := [] }

/-- The report string `scan` returns when the snapshot is non-empty. -/
def scanReport (root : RawNode) : String :=
  if (scan root).report = [] then "No interactive elements found. Try scrolling."
  else "Interactive Elements (" ++ toString (scan root).elements.length ++ " items):\n"
    ++ String.intercalate "\n" (scan root).report

/-! ## Browser element lookup (`browser.py`)

`click_element` and `type_text` first resolve the id against the current
`elements_map`; only this resolution step is local, everything after it is
an external playwright interaction on the resolved element.  The result is
either the early not-found error string or the `ElementInfo` the method
goes on to act upon. -/

def lookupElement (m : List ElementInfo) (i : Int) : Option ElementInfo :=
  m.find? (fun e => (e.id : Int) = i)

def click_element (m : List ElementInfo) (i : Int) : String ⊕ ElementInfo :=
  match lookupElement m i with
  | none => Sum.inl ("❌ Error: ID " ++ toString i
      ++ " not found. Suggestion: Call 'scan_page' to refresh IDs.")
  | some e => Sum.inr e

def type_text (m : List ElementInfo) (i : Int) : String ⊕ ElementInfo :=
  match lookupElement m i with
  | none => Sum.inl ("ID " ++ toString i ++ " not found.")
  | some e => Sum.inr e

/-! ## Agent loop (`agent.py`)

`ParsedArgs` models the dict produced by `json.loads` on a tool call's
arguments string: `argsRepr` is its python `str(args)` representation used
for the action fingerprint, and the remaining fields model the keys read
by the internal tools (`args.get("steps", [])`, `result_summary`,
`question`, `final_result`).  A `ToolCall`'s `args` field is the outcome
of `json.loads`: `Except.error` models the raised `JSONDecodeError`.
`Msg` models a history entry and `AgentState` the per-task mutable agent
fields.  The external collaborators — the browser capability set and the
human operator's `console.input` — are the `Externals` parameter;
`ExecRes.exn` models an exception raised by a dispatched tool. -/

structure ParsedArgs where
  argsRepr : String := ""
  steps : List String := []
  result_summary : String := ""
  question : String := ""
  final_result : String := ""
deriving DecidableEq

instance exceptDecEq {α β : Type} [DecidableEq α] [DecidableEq β] :
    DecidableEq (Except α β) := fun a b =>
  match a, b with
  | Except.error x, Except.error y =>
    decidable_of_iff (x = y) ⟨fun h => by rw [h], fun h => by injection h⟩
  | Except.error _, Except.ok _ => isFalse (fun h => by injection h)
  | Except.ok _, Except.error _ => isFalse (fun h => by injection h)
  | Except.ok x, Except.ok y =>
    decidable_of_iff (x = y) ⟨fun h => by rw [h], fun h => by injection h⟩

structure ToolCall where
  id : String
  name : String
  args : Except String ParsedArgs
deriving DecidableEq

inductive Msg where
  | assistant (content : String) (tool_calls : List ToolCall)
  | user (content : String)
  | tool (tool_call_id : String) (content : String)
deriving DecidableEq

structure AgentState where
  history : List Msg
  plan : List String
  notes : List String
  has_planned : Bool
  last_action : Option (String × String)
  repeated_action_count : Nat
deriving DecidableEq

inductive ExecRes where
  | ret (r : String)
  | exn (m : String)
deriving DecidableEq

structure Externals where
  browser : String → ParsedArgs → ExecRes
  userAnswer : String → String

def overrideMsg : String :=
  "⛔ SYSTEM OVERRIDE: You are looping the exact same action 3 times. STOP. You MUST choose a DIFFERENT tool or strategy."

/-- `Agent._get_error_hint`. -/
def errorHint (fname error_msg : String) : String :=
  let hint := "\n\n💡 ADAPTIVE STRATEGY: "
  if fname = "click_element" then
    if pyIn "outside of the viewport" error_msg then
      hint ++ "The element is hidden. Call 'scroll(direction='down')' to reveal it."
    else if pyIn "obscured" error_msg then
      hint ++ "Something covers the element. Try closing popups first."
    else
      hint ++ "Click failed. Try: 1. Scroll closer. 2. Search by typing text instead. 3. Use 'open_url' to navigate directly."
  else if fname = "scan_page" then
    hint ++ "If the page is empty, try waiting a bit or reloading. If it's too big, ignore navigation elements and focus on content."
  else if fname = "type_text" then
    hint ++ "Typing failed. Try clicking the input field first, then type again."
  else ""

/-- Agent.run lines 132-133: append the adaptive hint when the result
signals an error or failure. -/
def withHint (fname result : String) : String :=
  if pyIn "Error" result || pyIn "fail" (pyLower result) then
    result ++ errorHint fname result
  else result

def TOKEN_LIMIT : Nat := 100000

/-- `Agent._add_tool_result` truncation (agent.py lines 173-174). -/
def truncateResult (result : String) : String :=
  if pyLen result > 20000 then
    pyTake result 2000 ++ "\n...[TRUNCATED DUE TO LENGTH]... Call scan_page again if needed."
  else result

/-- `Agent._add_tool_result`: truncate and append as a tool-role entry. -/
def addToolResult (s : AgentState) (toolId : String) (result : String) : AgentState :=
  { s with history := s.history ++ [Msg.tool toolId (truncateResult result)] }

def browserToolNames : List String :=
  ["open_url", "scan_page", "click_element", "type_text", "scroll",
   "get_tabs", "switch_tab", "close_tab"]

/-- The `tools_map` dispatch of Agent.run lines 123-130: the internal tools
`_tool_mark_done` / `_tool_finish` / `_tool_ask_user` are modelled in
place, the browser tools and the human answer come from `Externals`, and
an unknown name yields the not-found error result. -/
def dispatch (ex : Externals) (s : AgentState) (fname : String) (args : ParsedArgs) :
    AgentState × ExecRes :=
  if fname = "mark_step_done" then
    let s1 := match s.plan with
      | [] => s
      | _ :: rest => { s with plan := rest }
    ({ s1 with notes := s1.notes ++ ["Step done: " ++ args.result_summary] },
     ExecRes.ret "Step marked done.")
  else if fname = "finish_task" then (s, ExecRes.ret "Finished.")
  else if fname = "ask_user" then
    let ans := ex.userAnswer args.question
    ({ s with notes := s.notes
        ++ ["User Clarification (Q: " ++ args.question ++ " | A: " ++ ans ++ ")"] },
     ExecRes.ret ("User Answer: " ++ ans))
  else if browserToolNames.contains fname then (s, ex.browser fname args)
  else (s, ExecRes.ret ("Error: Tool " ++ fname ++ " not found"))

/-- The outcome of processing one tool call in the `for tool_call in
msg.tool_calls` loop of `Agent.run` (lines 92-142): `cont` proceeds to the
next tool call, `reset` is the `set_plan` context reset followed by
`break`, `finish` is the `finish_task` `return`. -/
inductive StepRes where
  | cont (s : AgentState)
  | reset (s : AgentState)
  | finish (s : AgentState)
deriving DecidableEq

/-- One iteration of the tool-call loop of `Agent.run` (lines 92-142). -/
def processCall (ex : Externals) (s : AgentState) (tc : ToolCall) : StepRes :=
  match tc.args with
  | Except.error m =>
    StepRes.cont (addToolResult s tc.id ("Error executing " ++ tc.name ++ ": " ++ m))
  | Except.ok args =>
    if tc.name = "set_plan" then
      StepRes.reset { s with plan := args.steps, history := [], has_planned := true }
    else if tc.name = "finish_task" then
      StepRes.finish s
    else
      let fp := (tc.name, args.argsRepr)
      let cnt := if s.last_action = some fp then s.repeated_action_count + 1 else 0
      let s1 := { s with repeated_action_count := cnt }
      if cnt ≥ 3 then
        StepRes.cont (addToolResult { s1 with last_action := some fp } tc.id
          (withHint tc.name overrideMsg))
      else
        match dispatch ex s1 tc.name args with
        | (s2, ExecRes.ret r) =>
          StepRes.cont (addToolResult { s2 with last_action := some fp } tc.id
            (withHint tc.name r))
        | (s2, ExecRes.exn m) =>
          StepRes.cont (addToolResult s2 tc.id
            ("Error executing " ++ tc.name ++ ": " ++ m))

/-- The overall outcome of one model turn's tool calls: `next` continues
with the next loop iteration, `finished` is the `return` of `Agent.run`. -/
inductive TurnOutcome where
  | next (s : AgentState)
  | finished (s : AgentState)
deriving DecidableEq

/-- The whole `for tool_call in msg.tool_calls` loop of `Agent.run`,
including the `break` after `set_plan` and the `return` of `finish_task`. -/
def processCalls (ex : Externals) : List ToolCall → AgentState → TurnOutcome
  | [], s => TurnOutcome.next s
  | tc :: rest, s =>
    match processCall ex s tc with
    | StepRes.cont s1 => processCalls ex rest s1
    | StepRes.reset s1 => TurnOutcome.next s1
    | StepRes.finish s1 => TurnOutcome.finished s1

/-! ## History manager (`Agent._prune_history`)

The tiktoken encoder is external; `enc` maps a string to its token count,
and `tcRepr` models python's `str(msg["tool_calls"])`.  The walk goes from
most recent to oldest, keeps entries while the running total stays within
`TOKEN_LIMIT`, and reverses back to chronological order. -/

def msgText (tcRepr : List ToolCall → String) : Msg → String
  | Msg.assistant c tcs => c ++ (if tcs.isEmpty then "" else tcRepr tcs)
  | Msg.user c => c
  | Msg.tool _ c => c

def pruneAux (tok : Msg → Nat) : List Msg → Nat → List Msg
  | [], _ => []
  | m :: rest, total =>
    if total + tok m > TOKEN_LIMIT then []
    else m :: pruneAux tok rest (total + tok m)

def pruneHistory (enc : String → Nat) (tcRepr : List ToolCall → String)
    (history : List Msg) : List Msg :=
  (pruneAux (fun m => enc (msgText tcRepr m)) history.reverse 0).reverse

/-! ## Specification-side definitions used to state the claims -/

/-- The nearest-named-descendant name collection actually performed by
`_collect_text`, written as a flat list of names: a child with a non-empty
stripped name contributes that name and is not descended into; an unnamed
child contributes the names collected from its own children. -/
def frontierNames : List RawNode → List String
  | [] => []
  | c :: rest =>
    (match c with
     | RawNode.mk _ rawName _ _ _ _ children =>
       if pstrip rawName ≠ "" then [pstrip rawName] else frontierNames children)
    ++ frontierNames rest
termination_by l => sizeOf l
decreasing_by
  all_goals simp_wf
  all_goals omega

/-- The non-empty stripped names of all descendants, depth-first — the
collection the claim ascribes to the synthesis (descending below named
children as well). -/
def allDescendantNames : List RawNode → List String
  | [] => []
  | c :: rest =>
    (match c with
     | RawNode.mk _ rawName _ _ _ _ children =>
       (if pstrip rawName ≠ "" then [pstrip rawName] else []) ++ allDescendantNames children)
    ++ allDescendantNames rest
termination_by l => sizeOf l
decreasing_by
  all_goals simp_wf
  all_goals omega

/-- The id/size invariant of the elements map: the stored ids are exactly
`1..k` in insertion order and at most 800 elements are registered. -/
def scanInv (s : ScanState) : Prop :=
  s.elements.map ElementInfo.id = List.range' 1 s.elements.length ∧
  s.elements.length ≤ 800

/-! ## Concrete fixtures used by witnesses and counterexamples -/

def exScroll : Externals :=
  { browser := fun _ _ => ExecRes.ret "Scrolled down.", userAnswer := fun _ => "yes" }

def scrollCall (i : String) : ToolCall :=
  { id := i, name := "scroll", args := Except.ok { argsRepr := "direction: down" } }

def freshState : AgentState :=
  { history := [], plan := [], notes := [], has_planned := false,
    last_action := none, repeated_action_count := 0 }

def repeatState : AgentState :=
  { history := [], plan := [], notes := [], has_planned := false,
    last_action := some ("scroll", "direction: down"), repeated_action_count := 2 }

def setPlanCall : ToolCall :=
  { id := "2", name := "set_plan",
    args := Except.ok { argsRepr := "steps: [search, click]",
                        steps := ["search for item", "click first result"] } }

def badJsonCall : ToolCall :=
  { id := "7", name := "click_element",
    args := Except.error "Expecting value: line 1 column 1 (char 0)" }

def demoRoot : RawNode :=
  RawNode.mk "heading" "Search Results" none false none false
    [RawNode.mk "button" "Buy" none false none false []]

def demoDeep : RawNode :=
  RawNode.mk "button" "" none false none false
    [RawNode.mk "generic" "A" none false none false
      [RawNode.mk "generic" "B" none false none false []]]

def emptyScan : ScanState := { elements := [], report := [] }
/-! ### Lemmas about the string primitives -/

theorem sdata_ne_nil {s : String} : s ≠ "" ↔ s.data ≠ [] := by
  constructor
  · intro h hd
    exact h (String.ext hd)
  · intro h he
    exact h (by rw [he])

theorem dropWhile_append_clean {p : Char → Bool} {a : List Char} (b : List Char)
    (h : a.dropWhile p = a) (ha : a ≠ []) : (a ++ b).dropWhile p = a ++ b := by
  cases a with
  | nil => exact absurd rfl ha
  | cons x t =>
    have hx : ¬ p x := by
      have := (List.dropWhile_eq_self_iff).mp h
      simpa using this (by simp)
    simp [List.dropWhile_cons, hx]

theorem rdropWhile_append_clean {p : Char → Bool} (a : List Char) {b : List Char}
    (h : b.rdropWhile p = b) (hb : b ≠ []) : (a ++ b).rdropWhile p = a ++ b := by
  have hb' : b.reverse.dropWhile p = b.reverse := by
    have : (b.reverse.dropWhile p).reverse = b := by
      simpa [List.rdropWhile] using h
    calc b.reverse.dropWhile p = ((b.reverse.dropWhile p).reverse).reverse := by
          rw [List.reverse_reverse]
      _ = b.reverse := by rw [this]
  have hbne : b.reverse ≠ [] := by simpa using hb
  have := dropWhile_append_clean (p := p) a.reverse hb' hbne
  simp only [List.rdropWhile, List.reverse_append]
  rw [this, List.reverse_append, List.reverse_reverse, List.reverse_reverse]

theorem dropWhile_of_append_eq {p : Char → Bool} {a t l : List Char}
    (hl : l.dropWhile p = l) (hpre : a ++ t = l) : a.dropWhile p = a := by
  cases a with
  | nil => rfl
  | cons x a' =>
    have hx : ¬ p x := by
      have h0 := (List.dropWhile_eq_self_iff).mp hl
      subst hpre
      simpa using h0 (by simp)
    simp [List.dropWhile_cons, hx]

theorem pstripL_dropWhile (l : List Char) :
    (pstripL l).dropWhile pySpace = pstripL l := by
  have hidem : (l.dropWhile pySpace).dropWhile pySpace = l.dropWhile pySpace :=
    List.dropWhile_idempotent _ _
  obtain ⟨t, ht⟩ := List.rdropWhile_prefix (p := pySpace) (l := l.dropWhile pySpace)
  exact dropWhile_of_append_eq hidem ht

theorem pstripL_rdropWhile (l : List Char) :
    (pstripL l).rdropWhile pySpace = pstripL l := by
  simpa [pstripL] using
    List.rdropWhile_idempotent (p := pySpace) (l := l.dropWhile pySpace)

theorem pstripL_of_clean {l : List Char}
    (h1 : l.dropWhile pySpace = l) (h2 : l.rdropWhile pySpace = l) :
    pstripL l = l := by
  rw [pstripL, h1, h2]

theorem pstrip_idem (s : String) : pstrip (pstrip s) = pstrip s := by
  apply String.ext
  show pstripL (pstripL s.data) = pstripL s.data
  exact pstripL_of_clean (pstripL_dropWhile s.data) (pstripL_rdropWhile s.data)

theorem pstrip_fix_clean {s : String} (h : pstrip s = s) :
    s.data.dropWhile pySpace = s.data ∧ s.data.rdropWhile pySpace = s.data := by
  have hd : pstripL s.data = s.data := by
    have := congrArg String.data h
    simpa [pstrip] using this
  constructor
  · rw [← hd]; exact pstripL_dropWhile s.data
  · rw [← hd]; exact pstripL_rdropWhile s.data

theorem sdata_append (a b : String) : (a ++ b).data = a.data ++ b.data :=
  String.data_append a b

theorem joinSp_cons (x : String) (l : List String) :
    joinSp (x :: l) = if l = [] then x else x ++ " " ++ joinSp l := by
  cases l with
  | nil => simp [joinSp]
  | cons y t => simp [joinSp]

theorem joinSp_append {a b : List String} (ha : a ≠ []) (hb : b ≠ []) :
    joinSp (a ++ b) = joinSp a ++ " " ++ joinSp b := by
  induction a with
  | nil => exact absurd rfl ha
  | cons x a' ih =>
    cases a' with
    | nil =>
      cases b with
      | nil => exact absurd rfl hb
      | cons y t => simp [joinSp]
    | cons z a'' =>
      have h1 : joinSp ((x :: z :: a'') ++ b) = x ++ " " ++ joinSp ((z :: a'') ++ b) := by
        simp [joinSp]
      rw [h1, ih (by simp)]
      simp [joinSp, String.append_assoc]

theorem joinSp_ne_empty {l : List String} (h : ∀ x ∈ l, x ≠ "") (hl : l ≠ []) :
    joinSp l ≠ "" := by
  cases l with
  | nil => exact absurd rfl hl
  | cons x t =>
    cases t with
    | nil => exact h x (by simp)
    | cons y t' =>
      rw [sdata_ne_nil]
      show (x ++ " " ++ joinSp (y :: t')).data ≠ []
      rw [sdata_append, sdata_append]
      intro hc
      have : (" " : String).data = [] := (List.append_eq_nil.mp
        ((List.append_eq_nil.mp hc).1)).2
      simp [String.data] at this

theorem joinSp_clean {l : List String}
    (h : ∀ x ∈ l, x ≠ "" ∧ pstrip x = x) :
    (joinSp l).data.dropWhile pySpace = (joinSp l).data ∧
    (joinSp l).data.rdropWhile pySpace = (joinSp l).data ∧
    (l ≠ [] → (joinSp l).data ≠ []) := by
  induction l with
  | nil => simp [joinSp, List.rdropWhile]
  | cons x t ih =>
    obtain ⟨hx, hxs⟩ := h x (by simp)
    obtain ⟨hx1, hx2⟩ := pstrip_fix_clean hxs
    have hxd : x.data ≠ [] := sdata_ne_nil.mp hx
    cases t with
    | nil =>
      refine ⟨by simpa [joinSp] using hx1, by simpa [joinSp] using hx2, fun _ => by
        simpa [joinSp] using hxd⟩
    | cons y t' =>
      obtain ⟨ih1, ih2, ih3⟩ := ih (fun z hz => h z (by simp [hz]))
      have hrest : (joinSp (y :: t')).data ≠ [] := ih3 (by simp)
      have hdata : (joinSp (x :: y :: t')).data
          = x.data ++ (' ' :: (joinSp (y :: t')).data) := by
        show (x ++ " " ++ joinSp (y :: t')).data = _
        rw [sdata_append, sdata_append]
        simp [String.data, List.append_assoc]
      refine ⟨?_, ?_, fun _ => ?_⟩
      · rw [hdata]
        exact dropWhile_append_clean _ hx1 hxd
      · rw [hdata]
        have : x.data ++ (' ' :: (joinSp (y :: t')).data)
            = (x.data ++ [' ']) ++ (joinSp (y :: t')).data := by
          simp [List.append_assoc]
        rw [this]
        exact rdropWhile_append_clean _ ih2 hrest
      · rw [hdata]
        simp [hxd]

theorem pstrip_joinSp {l : List String}
    (h : ∀ x ∈ l, x ≠ "" ∧ pstrip x = x) :
    pstrip (joinSp l) = joinSp l := by
  obtain ⟨h1, h2, _⟩ := joinSp_clean h
  apply String.ext
  show pstripL (joinSp l).data = (joinSp l).data
  exact pstripL_of_clean h1 h2

theorem startsWithL_self_append (n t : List Char) : startsWithL n (n ++ t) = true := by
  induction n with
  | nil => rfl
  | cons c n' ih => simp [startsWithL, ih]

theorem containsL_nil_needle (hay : List Char) : containsL [] hay = true := by
  cases hay with
  | nil => rfl
  | cons c t => simp [containsL, startsWithL]

theorem containsL_mid (n p t : List Char) : containsL n (p ++ n ++ t) = true := by
  induction p with
  | nil =>
    cases n with
    | nil => simpa using containsL_nil_needle t
    | cons c n' =>
      show containsL (c :: n') ((c :: n') ++ t) = true
      show (startsWithL (c :: n') ((c :: n') ++ t) || _) = true
      rw [startsWithL_self_append]
      rfl
  | cons c p' ih =>
    show (startsWithL n (c :: (p' ++ n ++ t)) || containsL n (p' ++ n ++ t)) = true
    rw [ih]
    simp

theorem pyIn_mid (n a b : String) : pyIn n (a ++ n ++ b) = true := by
  show containsL n.data (a ++ n ++ b).data = true
  rw [sdata_append, sdata_append]
  exact containsL_mid n.data a.data b.data
/-! ## Traversal invariants -/

theorem scanInv_snoc {s : ScanState} (hs : scanInv s) (hlt : s.elements.length < 800)
    (role nm : String) (r : List String) :
    scanInv { elements := s.elements ++ [⟨s.elements.length + 1, role, nm⟩], report := r } := by
  obtain ⟨hids, hlen⟩ := hs
  constructor
  · simp only [List.map_append, List.length_append, List.map_cons, List.map_nil,
      List.length_cons, List.length_nil]
    rw [hids, List.range'_concat]
    simp [Nat.add_comm]
  · simp only [List.length_append, List.length_cons, List.length_nil]
    omega

mutual

theorem traverse_inv (n : RawNode) : ∀ s : ScanState, scanInv s → scanInv (traverse n s) := by
  intro s hs
  rw [traverse.eq_def]
  split
  · exact hs
  · split
    · exact traverseList_inv n.children s hs
    · split
      · exact traverseList_inv n.children _ hs
      · split
        · rename_i h800 _ _ _
          exact traverseList_inv n.children _ (scanInv_snoc hs (by omega) _ _ _)
        · split
          · exact traverseList_inv n.children _ hs
          · exact traverseList_inv n.children _ hs
termination_by sizeOf n
decreasing_by
  all_goals exact RawNode.sizeOf_children_lt n

theorem traverseList_inv (l : List RawNode) :
    ∀ s : ScanState, scanInv s → scanInv (traverseList l s) := by
  intro s hs
  match l with
  | [] => simpa [traverseList] using hs
  | c :: rest =>
    rw [traverseList]
    exact traverseList_inv rest (traverse c s) (traverse_inv c s hs)
termination_by sizeOf l
decreasing_by
  all_goals simp_wf
  all_goals omega

end

mutual

theorem traverse_grow (n : RawNode) : ∀ s : ScanState,
    ∃ t u, (traverse n s).elements = s.elements ++ t ∧
           (traverse n s).report = s.report ++ u := by
  intro s
  rw [traverse.eq_def]
  split
  · exact ⟨[], [], by simp, by simp⟩
  · split
    · exact traverseList_grow n.children s
    · split
      · obtain ⟨t, u, ht, hu⟩ := traverseList_grow n.children
          { s with report := s.report ++
              ["\n=== " ++ pyUpper n.role ++ " " ++ displayName (finalName n) ++ " ==="] }
        exact ⟨t, _ :: u, by simpa using ht, by simpa using hu⟩
      · split
        · obtain ⟨t, u, ht, hu⟩ := traverseList_grow n.children
            { elements := s.elements ++ [⟨s.elements.length + 1, n.role, finalName n⟩],
              report := s.report ++
                [toString (s.elements.length + 1) ++ ". [" ++ n.role ++ "] "
                  ++ displayName (finalName n) ++ attrStr n (finalName n)] }
          exact ⟨_ :: t, _ :: u, by simpa using ht, by simpa using hu⟩
        · split
          · obtain ⟨t, u, ht, hu⟩ := traverseList_grow n.children
              { s with report := s.report ++ ["    (txt) " ++ displayName (finalName n)] }
            exact ⟨t, _ :: u, by simpa using ht, by simpa using hu⟩
          · exact traverseList_grow n.children s
termination_by sizeOf n
decreasing_by
  all_goals exact RawNode.sizeOf_children_lt n

theorem traverseList_grow (l : List RawNode) : ∀ s : ScanState,
    ∃ t u, (traverseList l s).elements = s.elements ++ t ∧
           (traverseList l s).report = s.report ++ u := by
  intro s
  match l with
  | [] => exact ⟨[], [], by simp [traverseList], by simp [traverseList]⟩
  | c :: rest =>
    rw [traverseList]
    obtain ⟨t1, u1, ht1, hu1⟩ := traverse_grow c s
    obtain ⟨t2, u2, ht2, hu2⟩ := traverseList_grow rest (traverse c s)
    exact ⟨t1 ++ t2, u1 ++ u2, by rw [ht2, ht1, List.append_assoc],
      by rw [hu2, hu1, List.append_assoc]⟩
termination_by sizeOf l
decreasing_by
  all_goals simp_wf
  all_goals omega

end

theorem frontierNames_clean (l : List RawNode) :
    ∀ x ∈ frontierNames l, x ≠ "" ∧ pstrip x = x := by
  match l with
  | [] => intro x hx; simp [frontierNames] at hx
  | c :: rest =>
    intro x hx
    rw [frontierNames.eq_def] at hx
    simp only [] at hx
    rcases List.mem_append.mp hx with h | h
    · cases c with
      | mk r nm v ck lv d children =>
        simp only [] at h
        by_cases hnm : pstrip nm ≠ ""
        · rw [if_pos hnm] at h
          simp only [List.mem_singleton] at h
          subst h
          exact ⟨hnm, pstrip_idem nm⟩
        · rw [if_neg hnm] at h
          exact frontierNames_clean children x h
    · exact frontierNames_clean rest x h
termination_by sizeOf l
decreasing_by
  all_goals simp_wf
  all_goals omega

theorem collect_eq_frontier (l : List RawNode) :
    joinSp ((collectParts l).filter (fun t => t ≠ "")) = joinSp (frontierNames l) ∧
    ((collectParts l).filter (fun t => t ≠ "") = [] ↔ frontierNames l = []) := by
  match l with
  | [] => constructor <;> simp [collectParts, frontierNames]
  | c :: rest =>
    obtain ⟨ihr1, ihr2⟩ := collect_eq_frontier rest
    cases c with
    | mk r nm v ck lv d children =>
      rw [collectParts.eq_def, frontierNames.eq_def]
      simp only []
      by_cases hnm : pstrip nm ≠ ""
      · rw [if_pos hnm, if_pos hnm]
        rw [List.filter_cons_of_pos (by simpa using hnm)]
        constructor
        · by_cases hfr : (collectParts rest).filter (fun t => t ≠ "") = []
          · rw [joinSp_cons, if_pos hfr, List.singleton_append, joinSp_cons,
              if_pos (ihr2.mp hfr)]
          · rw [joinSp_cons, if_neg hfr, List.singleton_append, joinSp_cons,
              if_neg (fun hh => hfr (ihr2.mpr hh)), ihr1]
        · simp
      · obtain ⟨ihc1, ihc2⟩ := collect_eq_frontier children
        rw [if_neg hnm, if_neg hnm]
        have hclean := frontierNames_clean children
        have hpart : pstrip (joinSp ((collectParts children).filter (fun t => t ≠ "")))
            = joinSp (frontierNames children) := by
          rw [ihc1]
          exact pstrip_joinSp hclean
        by_cases hc : frontierNames children = []
        · have hpe : pstrip (joinSp ((collectParts children).filter (fun t => t ≠ ""))) = "" := by
            rw [hpart, hc]
            rfl
          rw [List.filter_cons_of_neg (by simpa using hpe), hc, List.nil_append]
          exact ⟨ihr1, ihr2⟩
        · have hpne : pstrip (joinSp ((collectParts children).filter (fun t => t ≠ ""))) ≠ "" := by
            rw [hpart]
            exact joinSp_ne_empty (fun x hx => (hclean x hx).1) hc
          rw [List.filter_cons_of_pos (by simpa using hpne)]
          constructor
          · by_cases hfr : frontierNames rest = []
            · rw [joinSp_cons, if_pos (ihr2.mpr hfr), hfr, List.append_nil, hpart]
            · rw [joinSp_cons, if_neg (fun hh => hfr (ihr2.mp hh)), hpart, ihr1,
                joinSp_append hc hfr]
          · constructor
            · intro hh
              exact absurd hh (by simp)
            · intro hh
              exact absurd hh (by simp [hc])
termination_by sizeOf l
decreasing_by
  all_goals simp_wf
  all_goals omega

theorem collectText_eq_frontier (l : List RawNode) :
    collectText l = joinSp (frontierNames l) := by
  unfold collectText
  rw [(collect_eq_frontier l).1]
  exact pstrip_joinSp (frontierNames_clean l)

/-! ## Agent-loop helper lemmas -/

theorem withHint_overrideMsg (fname : String) : withHint fname overrideMsg = overrideMsg := by
  unfold withHint
  rw [show pyIn "Error" overrideMsg = false from by decide,
    show pyIn "fail" (pyLower overrideMsg) = false from by decide]
  simp

theorem processCall_cont (ex : Externals) (s : AgentState) (tc : ToolCall)
    (h2 : tc.name ≠ "set_plan") (h3 : tc.name ≠ "finish_task") :
    ∃ s1, processCall ex s tc = StepRes.cont s1 := by
  unfold processCall
  cases htc : tc.args with
  | error m => exact ⟨_, rfl⟩
  | ok a =>
    dsimp only
    rw [if_neg h2, if_neg h3]
    repeat' split
    all_goals exact ⟨_, rfl⟩

theorem processCalls_through (ex : Externals) (pre : List ToolCall) :
    ∀ s : AgentState,
    (∀ c ∈ pre, c.name ≠ "set_plan" ∧ c.name ≠ "finish_task") →
    ∃ s2, ∀ rest, processCalls ex (pre ++ rest) s = processCalls ex rest s2 := by
  induction pre with
  | nil => exact fun s _ => ⟨s, fun rest => rfl⟩
  | cons tc pre' ih =>
    intro s hpre
    obtain ⟨hn1, hn2⟩ := hpre tc (by simp)
    obtain ⟨s1, hs1⟩ := processCall_cont ex s tc hn1 hn2
    obtain ⟨s2, hs2⟩ := ih s1 (fun c hc => hpre c (by simp [hc]))
    refine ⟨s2, fun rest => ?_⟩
    show processCalls ex (tc :: (pre' ++ rest)) s = _
    rw [processCalls, hs1]
    exact hs2 rest

theorem processCall_set_plan (ex : Externals) (s : AgentState) (tc : ToolCall)
    (a : ParsedArgs) (hn : tc.name = "set_plan") (ha : tc.args = Except.ok a) :
    processCall ex s tc =
      StepRes.reset { s with plan := a.steps, history := [], has_planned := true } := by
  unfold processCall
  rw [ha]
  simp [hn]

theorem pruneAux_idem (tok : Msg → Nat) (l : List Msg) : ∀ t : Nat,
    pruneAux tok (pruneAux tok l t) t = pruneAux tok l t := by
  induction l with
  | nil => intro t; simp [pruneAux]
  | cons m rest ih =>
    intro t
    by_cases h : t + tok m > TOKEN_LIMIT
    · simp [pruneAux, h]
    · simp only [pruneAux, if_neg h]
      rw [ih]

/-! ## Claim theorems -/

/-- Claim C8: history pruning is idempotent for the fixed 100000-token
limit: for every tokenizer, tool-call stringification and history, pruning
an already-pruned history again yields the same history. -/
theorem c8_prune_idempotent (enc : String → Nat) (tcRepr : List ToolCall → String)
    (h : List Msg) :
    pruneHistory enc tcRepr (pruneHistory enc tcRepr h) = pruneHistory enc tcRepr h := by
  unfold pruneHistory
  rw [List.reverse_reverse, pruneAux_idem]

/-- Claim C2 (counterexample): with a tokenizer that prices the sole,
most-recent entry above the 100000-token limit, `_prune_history` drops
that entry and returns the empty history — the most recent turn is not
retained. -/
theorem c2_counterexample :
    pruneHistory (fun _ => TOKEN_LIMIT + 1) (fun _ => "") [Msg.user "hi"] = [] ∧
    [Msg.user "hi"] ≠ ([] : List Msg) := by
  exact ⟨by decide, by decide⟩

/-- Claim C2 (amended): for every history and the fixed token limit,
pruning retains the most recent entry whenever that entry's own token cost
is at most the limit; when its cost alone exceeds the limit, every entry —
including the most recent one — is dropped and the pruned history is
empty. -/
theorem c2_amended_recent_entry (enc : String → Nat) (tcRepr : List ToolCall → String)
    (h : List Msg) (m : Msg) :
    (enc (msgText tcRepr m) ≤ TOKEN_LIMIT →
      ∃ h2, pruneHistory enc tcRepr (h ++ [m]) = h2 ++ [m]) ∧
    (enc (msgText tcRepr m) > TOKEN_LIMIT →
      pruneHistory enc tcRepr (h ++ [m]) = []) := by
  unfold pruneHistory
  constructor
  · intro hle
    rw [List.reverse_append]
    simp only [List.reverse_singleton, List.singleton_append]
    rw [pruneAux, if_neg (by omega)]
    exact ⟨(pruneAux (fun x => enc (msgText tcRepr x)) h.reverse
      (0 + enc (msgText tcRepr m))).reverse, by simp⟩
  · intro hgt
    rw [List.reverse_append]
    simp only [List.reverse_singleton, List.singleton_append]
    rw [pruneAux, if_pos (by omega)]
    rfl

/-- Claim C2 witness: a two-entry history whose most recent entry is
affordable keeps that entry at the end after pruning. -/
theorem c2_witness :
    ∃ h2, pruneHistory (fun s => pyLen s) (fun _ => "")
      [Msg.user "older entry", Msg.user "most recent"] = h2 ++ [Msg.user "most recent"] :=
  (c2_amended_recent_entry (fun s => pyLen s) (fun _ => "") [Msg.user "older entry"]
    (Msg.user "most recent")).1 (by decide)

/-- Claim C1 (counterexample): from a fresh task state, choosing the
identical `scroll` action three times consecutively does NOT trigger the
override on the third selection: all three selections dispatch normally
(each appended tool result is the browser's result, not the override
string), and the repetition counter stands at 2. -/
theorem c1_counterexample :
    processCalls exScroll [scrollCall "1", scrollCall "2", scrollCall "3"] freshState =
      TurnOutcome.next
        { history := [Msg.tool "1" "Scrolled down.", Msg.tool "2" "Scrolled down.",
                      Msg.tool "3" "Scrolled down."],
          plan := [], notes := [], has_planned := false,
          last_action := some ("scroll", "direction: down"),
          repeated_action_count := 2 } ∧
    ("Scrolled down." : String) ≠ overrideMsg := by
  exact ⟨by decide, by decide⟩

/-- Claim C1 (amended): the loop guard counts consecutive repeats of the
identical `(name, str(args))` fingerprint, so the override fires on the
fourth consecutive identical selection (and all later ones), not the
third: (1) when the fingerprint matches the previous action and the
counter, after its increment, reaches 3 or more, the call is not
dispatched and the synthetic SYSTEM OVERRIDE string is appended instead,
with the counter still incremented; (2) when the incremented counter is
below 3 the call dispatches normally; (3) a differing fingerprint resets
the counter to zero and dispatches normally. -/
theorem c1_amended_loop_guard (ex : Externals) (s : AgentState) (tc : ToolCall)
    (a : ParsedArgs) (h1 : tc.args = Except.ok a) (h2 : tc.name ≠ "set_plan")
    (h3 : tc.name ≠ "finish_task") :
    (s.last_action = some (tc.name, a.argsRepr) → 2 ≤ s.repeated_action_count →
      processCall ex s tc = StepRes.cont (addToolResult
        { s with repeated_action_count := s.repeated_action_count + 1,
                 last_action := some (tc.name, a.argsRepr) } tc.id overrideMsg)) ∧
    (s.last_action = some (tc.name, a.argsRepr) → s.repeated_action_count < 2 →
      ∀ s2 r, dispatch ex { s with repeated_action_count := s.repeated_action_count + 1 }
          tc.name a = (s2, ExecRes.ret r) →
        processCall ex s tc = StepRes.cont (addToolResult
          { s2 with last_action := some (tc.name, a.argsRepr) } tc.id (withHint tc.name r))) ∧
    (s.last_action ≠ some (tc.name, a.argsRepr) →
      ∀ s2 r, dispatch ex { s with repeated_action_count := 0 } tc.name a
          = (s2, ExecRes.ret r) →
        processCall ex s tc = StepRes.cont (addToolResult
          { s2 with last_action := some (tc.name, a.argsRepr) } tc.id (withHint tc.name r))) := by
  refine ⟨?_, ?_, ?_⟩
  · intro hla hcnt
    unfold processCall
    rw [h1]
    dsimp only
    rw [if_neg h2, if_neg h3, if_pos hla, if_pos (by omega)]
    rw [withHint_overrideMsg]
  · intro hla hcnt s2 r hd
    unfold processCall
    rw [h1]
    dsimp only
    rw [if_neg h2, if_neg h3, if_pos hla, if_neg (by omega), hd]
  · intro hla s2 r hd
    unfold processCall
    rw [h1]
    dsimp only
    rw [if_neg h2, if_neg h3, if_neg hla, if_neg (by omega), hd]

/-- Claim C1 witness: with the previous action already repeated twice, a
fourth identical `scroll` selection is replaced by the SYSTEM OVERRIDE
result. -/
theorem c1_witness :
    processCall exScroll repeatState (scrollCall "4") =
      StepRes.cont (addToolResult
        { repeatState with
            repeated_action_count := repeatState.repeated_action_count + 1,
            last_action := some ("scroll", "direction: down") } "4" overrideMsg) :=
  (c1_amended_loop_guard exScroll repeatState (scrollCall "4")
    { argsRepr := "direction: down" } rfl (by decide) (by decide)).1 rfl (by decide)

/-- Claim C6: in a turn whose earlier tool calls are neither `set_plan`
nor `finish_task`, processing a well-formed `set_plan` call leaves the
history empty, sets the plan to the `steps` argument, sets the
plan-committed flag, and stops the turn: the outcome is independent of any
tool calls that follow the `set_plan` call, so no tool-result entry is
appended after the reset. -/
theorem c6_set_plan (ex : Externals) (pre post : List ToolCall) (sp : ToolCall)
    (a : ParsedArgs) (s : AgentState)
    (hpre : ∀ c ∈ pre, c.name ≠ "set_plan" ∧ c.name ≠ "finish_task")
    (hsp : sp.name = "set_plan") (ha : sp.args = Except.ok a) :
    ∃ st : AgentState, processCalls ex (pre ++ sp :: post) s = TurnOutcome.next st ∧
      st.history = [] ∧ st.plan = a.steps ∧ st.has_planned = true ∧
      ∀ post2, processCalls ex (pre ++ sp :: post2) s = TurnOutcome.next st := by
  obtain ⟨s2, hs2⟩ := processCalls_through ex pre s hpre
  have hstep := processCall_set_plan ex s2 sp a hsp ha
  refine ⟨{ s2 with plan := a.steps, history := [], has_planned := true },
    ?_, rfl, rfl, rfl, ?_⟩
  · rw [hs2 (sp :: post)]
    simp [processCalls, hstep]
  · intro post2
    rw [hs2 (sp :: post2)]
    simp [processCalls, hstep]

/-- Claim C6 witness: a turn `[scroll, set_plan, scroll]` from the fresh
state ends in a context reset with empty history, the two given plan
steps, the flag set, and an outcome independent of the trailing call. -/
theorem c6_witness :
    ∃ st : AgentState,
      processCalls exScroll ([scrollCall "1"] ++ setPlanCall :: [scrollCall "9"]) freshState
        = TurnOutcome.next st ∧
      st.history = [] ∧
      st.plan = ({ argsRepr := "steps: [search, click]",
                   steps := ["search for item", "click first result"] } : ParsedArgs).steps ∧
      st.has_planned = true ∧
      ∀ post2, processCalls exScroll ([scrollCall "1"] ++ setPlanCall :: post2) freshState
        = TurnOutcome.next st :=
  c6_set_plan exScroll [scrollCall "1"] [scrollCall "9"] setPlanCall
    { argsRepr := "steps: [search, click]",
      steps := ["search for item", "click first result"] }
    freshState (by decide) rfl rfl

theorem pyLen_append (a b : String) : pyLen (a ++ b) = pyLen a + pyLen b := by
  simp [pyLen, sdata_append]

theorem pyLen_take (s : String) (n : Nat) : pyLen (pyTake s n) = min n (pyLen s) := by
  simp [pyLen, pyTake]

/-- Claim C7: `_add_tool_result` appends the result unchanged exactly when
its length is at most 20000 characters; a longer result is appended as its
first 2000 characters followed by the explicit truncation marker and the
hint to call `scan_page` again. -/
theorem c7_truncation (s : AgentState) (toolId r : String) :
    ((addToolResult s toolId r).history = s.history ++ [Msg.tool toolId r]
      ↔ pyLen r ≤ 20000) ∧
    (pyLen r > 20000 → (addToolResult s toolId r).history
      = s.history ++ [Msg.tool toolId (pyTake r 2000
          ++ "\n...[TRUNCATED DUE TO LENGTH]... Call scan_page again if needed.")]) := by
  constructor
  · constructor
    · intro heq
      by_contra hgt
      push_neg at hgt
      have hres : truncateResult r = r := by
        have h2 := List.append_cancel_left heq
        simpa using h2
      have hlen := congrArg pyLen hres
      unfold truncateResult at hlen
      rw [if_pos hgt, pyLen_append, pyLen_take] at hlen
      have hm : pyLen "\n...[TRUNCATED DUE TO LENGTH]... Call scan_page again if needed."
          ≤ 18000 := by decide
      omega
    · intro hle
      simp [addToolResult, truncateResult, if_neg (by omega : ¬ pyLen r > 20000)]
  · intro hgt
    simp [addToolResult, truncateResult, if_pos hgt]

/-- Claim C7 witness: a short result is appended to the history unchanged. -/
theorem c7_witness :
    (addToolResult freshState "9" "Scrolled down.").history
      = freshState.history ++ [Msg.tool "9" "Scrolled down."] :=
  (c7_truncation freshState "9" "Scrolled down.").1.mpr (by decide)

/-- Claim C9: a tool call whose arguments string fails to parse is caught:
the loop appends a tool-result error string that names the tool (the
python `in` test finds the tool name in it) and continues with the
remaining tool calls of the turn instead of crashing. -/
theorem c9_malformed_args (ex : Externals) (tc : ToolCall) (rest : List ToolCall)
    (s : AgentState) (m : String) (h : tc.args = Except.error m) :
    pyIn tc.name ("Error executing " ++ tc.name ++ ": " ++ m) = true ∧
    processCalls ex (tc :: rest) s = processCalls ex rest
      (addToolResult s tc.id ("Error executing " ++ tc.name ++ ": " ++ m)) := by
  constructor
  · have hp := pyIn_mid tc.name "Error executing " (": " ++ m)
    simpa [String.append_assoc] using hp
  · have hpc : processCall ex s tc = StepRes.cont
        (addToolResult s tc.id ("Error executing " ++ tc.name ++ ": " ++ m)) := by
      unfold processCall
      rw [h]
    simp [processCalls, hpc]

/-- Claim C9 witness: a `click_element` call with unparsable JSON
arguments is reported as an error naming the tool and the loop moves on. -/
theorem c9_witness :
    pyIn "click_element" ("Error executing " ++ "click_element" ++ ": "
      ++ "Expecting value: line 1 column 1 (char 0)") = true ∧
    processCalls exScroll [badJsonCall] freshState = processCalls exScroll []
      (addToolResult freshState "7" ("Error executing " ++ "click_element" ++ ": "
        ++ "Expecting value: line 1 column 1 (char 0)")) :=
  c9_malformed_args exScroll badJsonCall [] freshState
    "Expecting value: line 1 column 1 (char 0)" rfl

/-- Claim C4: every id not assigned by the most recent scan — in
particular a stale id from a prior, larger scan — makes `click_element`
return the not-found error string that suggests a fresh `scan_page`,
without resolving to any element. -/
theorem c4_stale_id (root : RawNode) (i : Int)
    (h : ∀ e ∈ (scan root).elements, (e.id : Int) ≠ i) :
    click_element (scan root).elements i = Sum.inl ("❌ Error: ID " ++ toString i
      ++ " not found. Suggestion: Call 'scan_page' to refresh IDs.") := by
  unfold click_element lookupElement
  rw [List.find?_eq_none.mpr (fun e he => by simpa using h e he)]

/-- Claim C4 witness: after scanning the demo page (one button, id 1), the
stale id 5 fails the lookup with the not-found error string. -/
theorem c4_witness :
    click_element (scan demoRoot).elements 5 = Sum.inl ("❌ Error: ID "
      ++ toString (5 : Int)
      ++ " not found. Suggestion: Call 'scan_page' to refresh IDs.") := by
  have hscan : (scan demoRoot).elements = [⟨1, "button", "Buy"⟩] := by
    have hs : scan demoRoot =
        { elements := [⟨1, "button", "Buy"⟩],
          report := ["\n=== HEADING Search Results ===", "1. [button] Buy"] } := by
      simp [demoRoot, scan, traverse.eq_def, traverseList.eq_def, synName, finalName,
        collectText, collectParts, attrStr, attrList, displayName, flattenNl, pyLen,
        pyTake, pyUpper, pyIn, containsL, startsWithL, INTERACTIVE_ROLES, CONTEXT_ROLES,
        truthyVal, truthyLevel, pstrip, pstripL, RawNode.role, RawNode.name,
        RawNode.children, RawNode.value, RawNode.checked, RawNode.level,
        RawNode.disabled, List.rdropWhile]
      decide
    rw [hs]
  exact c4_stale_id demoRoot 5 (by rw [hscan]; decide)

/-- Claim C5: one scan registers at most 800 interactive elements, and the
assigned ids are exactly `1..k` in traversal order — no gaps, no repeats —
where `k` is the number of registered elements. -/
theorem c5_ids (root : RawNode) :
    (scan root).elements.length ≤ 800 ∧
    (scan root).elements.map ElementInfo.id
      = List.range' 1 (scan root).elements.length := by
  have h := traverse_inv root { elements := [], report := [] } ⟨rfl, by simp⟩
  exact ⟨h.2, h.1⟩

/-- Claim C3 (counterexample): for the interactive `button` node with an
empty own name whose child `"A"` itself has a named child `"B"`, the
synthesized (and registered) name is `"A"` — the collection stops at the
nearest named descendant — while the space-joined names of ALL descendants
would be `"A B"`. -/
theorem c3_counterexample :
    (scan demoDeep).elements = [⟨1, "button", "A"⟩] ∧
    joinSp (allDescendantNames demoDeep.children) = "A B" ∧
    ("A" : String) ≠ "A B" := by
  refine ⟨?_, ?_, by decide⟩
  · have hs : scan demoDeep =
        { elements := [⟨1, "button", "A"⟩], report := ["1. [button] A"] } := by
      simp [demoDeep, scan, traverse.eq_def, traverseList.eq_def, synName, finalName,
        collectText, collectParts.eq_def, attrStr, attrList, displayName, flattenNl,
        pyLen, pyTake, pyUpper, pyIn, containsL, startsWithL, INTERACTIVE_ROLES,
        CONTEXT_ROLES, truthyVal, truthyLevel, pstrip, pstripL, RawNode.role,
        RawNode.name, RawNode.children, RawNode.value, RawNode.checked, RawNode.level,
        RawNode.disabled, List.rdropWhile]
      decide
    rw [hs]
  · simp [demoDeep, allDescendantNames.eq_def, RawNode.children, pstrip, pstripL,
      List.rdropWhile, joinSp]
    decide

/-- Claim C3 (amended): for every interactive node whose own stripped name
is empty and which has children, the synthesized name equals the
space-joined, depth-first concatenation of the non-empty names of the
node's nearest named descendants: a child with a non-empty name
contributes exactly its own name (its subtree is not descended into), and
an unnamed child contributes the names collected recursively from its
children. -/
theorem c3_amended_synthesis (n : RawNode)
    (hrole : INTERACTIVE_ROLES.contains n.role = true)
    (hname : pstrip n.name = "") (hch : n.children ≠ []) :
    synName n = joinSp (frontierNames n.children) := by
  have hne : ¬ n.children.isEmpty := by
    simpa [List.isEmpty_iff] using hch
  unfold synName
  rw [if_pos ⟨hname, hne, hrole⟩]
  exact collectText_eq_frontier n.children

/-- Claim C3 witness: on the demo node the synthesized name equals the
join of the nearest-named-descendant collection. -/
theorem c3_witness :
    synName demoDeep = joinSp (frontierNames demoDeep.children) :=
  c3_amended_synthesis demoDeep (by decide) rfl (by simp [demoDeep, RawNode.children])

/-- Claim C10: an interactive node is registered with the full
post-synthesis, post-`[Value: ...]`-substitution name — length and
newlines preserved — while only the report line carries the
newline-flattened, 80-character-truncated display name; and a successful
id lookup hands `click_element`/`type_text` exactly that stored
`ElementInfo`, so page matching uses the stored untruncated name. -/
theorem c10_stored_name (n : RawNode) (s : ScanState)
    (hlen : s.elements.length < 800)
    (hrole : INTERACTIVE_ROLES.contains n.role = true) :
    (∃ t u, (traverse n s).elements
        = s.elements ++ ⟨s.elements.length + 1, n.role, finalName n⟩ :: t ∧
      (traverse n s).report = s.report
        ++ (toString (s.elements.length + 1) ++ ". [" ++ n.role ++ "] "
            ++ displayName (finalName n) ++ attrStr n (finalName n)) :: u) ∧
    (∀ (m : List ElementInfo) (i : Int) (e : ElementInfo),
      lookupElement m i = some e →
      click_element m i = Sum.inr e ∧ type_text m i = Sum.inr e) := by
  constructor
  · have hnh : n.role ≠ "heading" := by
      intro hr
      rw [hr] at hrole
      exact absurd hrole (by decide)
    rw [traverse.eq_def]
    rw [if_neg (by omega : ¬ s.elements.length ≥ 800),
      if_neg (not_not_intro (Or.inl hrole)), if_neg hnh, if_pos hrole]
    obtain ⟨t, u, ht, hu⟩ := traverseList_grow n.children
      { elements := s.elements ++ [⟨s.elements.length + 1, n.role, finalName n⟩],
        report := s.report ++
          [toString (s.elements.length + 1) ++ ". [" ++ n.role ++ "] "
            ++ displayName (finalName n) ++ attrStr n (finalName n)] }
    refine ⟨t, u, ?_, ?_⟩
    · rw [ht]
      simp
    · rw [hu]
      simp
  · intro m i e he
    constructor
    · unfold click_element
      rw [he]
    · unfold type_text
      rw [he]

/-- Claim C10 witness: the demo button is stored under its full
synthesized name, its report line uses the display name, and looking its
id up resolves to the stored element. -/
theorem c10_witness :
    (∃ t u, (traverse demoDeep emptyScan).elements
        = emptyScan.elements
          ++ ⟨emptyScan.elements.length + 1, demoDeep.role, finalName demoDeep⟩ :: t ∧
      (traverse demoDeep emptyScan).report = emptyScan.report
        ++ (toString (emptyScan.elements.length + 1) ++ ". [" ++ demoDeep.role ++ "] "
            ++ displayName (finalName demoDeep) ++ attrStr demoDeep (finalName demoDeep)) :: u) ∧
    (∀ (m : List ElementInfo) (i : Int) (e : ElementInfo),
      lookupElement m i = some e →
      click_element m i = Sum.inr e ∧ type_text m i = Sum.inr e) :=
  c10_stored_name demoDeep emptyScan (by simp [emptyScan]) (by decide)
